import Mathlib

/-!
# Verification of the dropmms scrape-and-classify service (`main.ts`)

This file shallowly embeds the scrape pipeline of `main.ts` (the
feature-complete "comprehensive debugging" variant) in Lean 4 and proves
properties of it.

Modelling conventions:

* The rendered HTML page, as seen through the cheerio selector queries the
  code performs, is embedded as a structured value (`Doc`): the text of the
  title selectors, and for each `.cPost_contentWrap` block the raw `href`
  attributes of its anchors and the attributes of its `img` elements.
* JavaScript string primitives (`startsWith`, `endsWith`, `includes`,
  `trim`, `toLowerCase`, `split('?')[0]`, `slice(-5)`) are modelled as
  executable functions over `List Char` with the same semantics on the
  ASCII strings this program manipulates.
* `new URL(href).hostname` is an external platform primitive: extraction is
  parameterised over `hostOf : String → Option String`, which returns the
  hostname, or `none` when `new URL` would throw (malformed URL).
  Concrete instantiations used in examples record the actual WHATWG
  parsing results for the specific strings involved.
* Fallible steps become `Except`: an uncaught JavaScript exception inside
  the handler's `try` block is `Except.error`, which the surrounding
  `catch` turns into an HTTP 500 response.
-/

namespace DropScrape

/-! ## JavaScript string primitives over `List Char` -/

/-- `listStarts pat l` : does `l` start with `pat`?  (JS `startsWith`.) -/
def listStarts : List Char → List Char → Bool
  | [], _ => true
  | _ :: _, [] => false
  | a :: pa, b :: l => a = b && listStarts pa l

/-- JS `s.startsWith(pre)`. -/
def jsStartsWith (s pre : String) : Bool :=
  listStarts pre.data s.data

/-- JS `s.endsWith(suf)` (a list ends with `suf` iff its reverse starts
with `suf.reverse`). -/
def jsEndsWith (s suf : String) : Bool :=
  listStarts suf.data.reverse s.data.reverse

/-- `jsIncludesL pat l` : does `pat` occur contiguously inside `l`? -/
def jsIncludesL (pat : List Char) (l : List Char) : Bool :=
  match l with
  | [] => listStarts pat []
  | _ :: t => listStarts pat l || jsIncludesL pat t

/-- JS `s.includes(pat)` (substring containment). -/
def jsIncludes (s pat : String) : Bool :=
  jsIncludesL pat.data s.data

/-- The ASCII whitespace characters JS `trim` removes on the strings this
program handles. -/
def isJsSpace (c : Char) : Bool :=
  c = ' ' || c = '\t' || c = '\n' || c = '\r'

/-- JS `s.trim()`: drop whitespace from both ends. -/
def jsTrim (s : String) : String :=
  ⟨(((s.data.dropWhile isJsSpace).reverse.dropWhile isJsSpace).reverse)⟩

/-- ASCII lower-casing of one character (JS `toLowerCase` on the ASCII
strings this program handles). -/
def lowerChar (c : Char) : Char :=
  if 'A' ≤ c ∧ c ≤ 'Z' then Char.ofNat (c.toNat + 32) else c

/-- JS `s.toLowerCase()`. -/
def jsToLower (s : String) : String :=
  ⟨s.data.map lowerChar⟩

/-- JS `s.split('?')[0]`: everything before the first `'?'`. -/
def beforeQuery (s : String) : String :=
  ⟨s.data.takeWhile (fun c => c ≠ '?')⟩

/-- JS `s.slice(-5)`: the last five characters (the whole string when
shorter). -/
def sliceLast5 (s : String) : String :=
  ⟨s.data.drop (s.data.length - 5)⟩

/-! ## Configuration data (main.ts lines 90-98) -/

/-- main.ts line 90: allow-listed origin prefixes. -/
def ALLOWED_PREFIXES : List String :=
  ["http://dropmms.co", "https://dropmms.co", "https://videmms24.com"]

/-- main.ts line 96: file-host substrings. -/
def zipDomains : List String :=
  ["upfiles.com", "file-upload.org", "zapupload.top", "frdl.io"]

/-- main.ts line 97: video-host substrings. -/
def videoDomains : List String :=
  ["strmup.cc", "luluvid.com", "vidnest.io", "vidoza.net",
   "streamtape.com", "vinovo.to", "up4fun.top"]

/-- main.ts line 98: recognized image extensions. -/
def imageExtensions : List String :=
  [".jpg", ".jpeg", ".png", ".gif", ".webp"]

/-! ## Document model

A `Doc` is the view of the rendered page that the extraction code
(main.ts lines 144-209) obtains through its cheerio queries. -/

/-- One `img` element inside a content wrap:
its `src` attribute, its `data-src` attribute, and the raw `href` of
`$(img).closest('a[href]')` when such an enclosing anchor exists. -/
structure Img where
  src : Option String
  dataSrc : Option String
  parentHref : Option String
  deriving DecidableEq, Repr

/-- One `.cPost_contentWrap` block: the raw `href` attribute of every
anchor in it that carries an href, and its `img` elements in document
order. -/
structure ContentWrap where
  anchorHrefs : List String
  imgs : List Img
  deriving DecidableEq, Repr

/-- The whole page as the extractor sees it: the text of
`$('h1.ipsType_pageTitle span.ipsContained span').first()`, the text of
`$('h1.ipsType_pageTitle').first()` (cheerio returns `""` for an empty
selection), and the content-wrap blocks. -/
structure Doc where
  titleSpanText : String
  titleHeadingText : String
  wraps : List ContentWrap
  deriving DecidableEq, Repr

/-- The JSON payload of a 200 response (main.ts lines 213-218). -/
structure ExtractionResult where
  title : String
  videos : List String
  images : List String
  zips : List String
  deriving DecidableEq, Repr

/-- The three accumulating arrays of main.ts lines 155-157. -/
structure Lists where
  videos : List String
  images : List String
  zips : List String
  deriving DecidableEq, Repr

/-! ## Extraction (main.ts lines 144-218) -/

/-- main.ts lines 146-149: trimmed nested-span text, else trimmed heading
text, else the literal default (JS `!title` is true exactly on `""`). -/
def extractTitle (spanText headingText : String) : String :=
  if jsTrim spanText = "" then
    (if jsTrim headingText = "" then "Untitled Thread" else jsTrim headingText)
  else jsTrim spanText

/-- main.ts lines 167-174: the `links` array of one wrap — anchors whose
raw href starts with `http` (selector `a[href^="http"]`), trimmed,
empties dropped. -/
def wrapLinks (w : ContentWrap) : List String :=
  ((w.anchorHrefs.filter (fun h => jsStartsWith h "http")).map jsTrim).filter
    (fun h => h ≠ "")

/-- `if (!list.includes(x)) list.push(x)` (main.ts lines 179, 182, 203). -/
def pushUnique (xs : List String) (x : String) : List String :=
  if x ∈ xs then xs else xs ++ [x]

/-- main.ts lines 176-185, one iteration: derive the hostname (throws —
`Except.error` — when the URL is malformed), then zip-domain check first,
video-domain check second, silently discard otherwise.  State is the pair
(videos, zips). -/
def classifyLink (hostOf : String → Option String) (href : String)
    (videos zips : List String) : Except Unit (List String × List String) :=
  match hostOf href with
  | none => .error ()
  | some h =>
    if zipDomains.any (fun d => jsIncludes (jsToLower h) d) then
      .ok (videos, pushUnique zips href)
    else if videoDomains.any (fun d => jsIncludes (jsToLower h) d) then
      .ok (pushUnique videos href, zips)
    else
      .ok (videos, zips)

/-- main.ts lines 176-185: `links.forEach(...)`; a thrown exception in any
iteration propagates out of the loop. -/
def classifyAll (hostOf : String → Option String) :
    List String → List String → List String →
    Except Unit (List String × List String)
  | [], videos, zips => .ok (videos, zips)
  | href :: rest, videos, zips =>
    match classifyLink hostOf href videos zips with
    | .error e => .error e
    | .ok (videos', zips') => classifyAll hostOf rest videos' zips'

/-- main.ts line 189: `$(img).attr('src') || $(img).attr('data-src') || ''`
(JS `||` falls through on `undefined` and on the empty string). -/
def jsOrElse (a : Option String) (b : String) : String :=
  match a with
  | some s => if s = "" then b else s
  | none => b

/-- The effective `src` of an image element (main.ts line 189). -/
def imgSrc (img : Img) : String :=
  jsOrElse img.src (jsOrElse img.dataSrc "")

/-- main.ts lines 192-193 / 198-199: lower-case, strip the query string,
take the last five characters, and test against the recognized image
extensions. -/
def extMatch (s : String) : Bool :=
  imageExtensions.any (fun e => jsEndsWith (sliceLast5 (beforeQuery (jsToLower s))) e)

/-- main.ts lines 194-202: the enclosing anchor's trimmed href replaces
the src exactly when it also carries a recognized extension. -/
def upgradeSrc (src : String) (parentHref : Option String) : String :=
  match parentHref with
  | some raw => if extMatch (jsTrim raw) then jsTrim raw else src
  | none => src

/-- main.ts lines 188-202, one `img` element: the value this element
offers for insertion into `images`, or `none` when the element is
skipped (src not starting with `http`, or unrecognized extension). -/
def imgCandidate (img : Img) : Option String :=
  if jsStartsWith (imgSrc img) "http" then
    if extMatch (imgSrc img) then some (upgradeSrc (imgSrc img) img.parentHref)
    else none
  else none

/-- main.ts lines 188-208: fold the image loop over the `images` array. -/
def processImgs : List Img → List String → List String
  | [], images => images
  | img :: rest, images =>
    processImgs rest
      (match imgCandidate img with
       | some s => pushUnique images s
       | none => images)

/-- One iteration of `contentWraps.each` (main.ts lines 159-209): classify
the wrap's links (which may throw), then collect its images. -/
def processWrap (hostOf : String → Option String) (w : ContentWrap)
    (st : Lists) : Except Unit Lists :=
  match classifyAll hostOf (wrapLinks w) st.videos st.zips with
  | .error e => .error e
  | .ok (videos, zips) => .ok ⟨videos, processImgs w.imgs st.images, zips⟩

/-- `contentWraps.each(...)` (main.ts line 159): an exception thrown in a
block propagates out of the whole traversal. -/
def extractWraps (hostOf : String → Option String) :
    List ContentWrap → Lists → Except Unit Lists
  | [], st => .ok st
  | w :: rest, st =>
    match processWrap hostOf w st with
    | .error e => .error e
    | .ok st' => extractWraps hostOf rest st'

/-- The whole extraction phase (main.ts lines 144-218): title plus the
three lists, or the uncaught exception. -/
def extract (hostOf : String → Option String) (doc : Doc) :
    Except Unit ExtractionResult :=
  match extractWraps hostOf doc.wraps ⟨[], [], []⟩ with
  | .error e => .error e
  | .ok l =>
    .ok ⟨extractTitle doc.titleSpanText doc.titleHeadingText,
         l.videos, l.images, l.zips⟩

/-- main.ts lines 213-226: a thrown exception anywhere inside the `try`
block is answered with HTTP 500, success with 200. -/
def scrapeResponseStatus (r : Except Unit ExtractionResult) : Nat :=
  match r with
  | .ok _ => 200
  | .error _ => 500

/-! ## Invariants of the classification state -/

/-- Whether link classification would route `href` to the zip list: its
hostname is derivable and contains a configured zip-host substring. -/
def zipHitB (hostOf : String → Option String) (href : String) : Bool :=
  match hostOf href with
  | some h => zipDomains.any (fun d => jsIncludes (jsToLower h) d)
  | none => false

/-- Invariant of the (videos, zips) pair maintained by link
classification: both lists are duplicate-free, every member of `zips`
matches a zip host, and no member of `videos` does. -/
def VZInv (hostOf : String → Option String) (videos zips : List String) : Prop :=
  videos.Nodup ∧ zips.Nodup ∧
    (∀ u ∈ videos, zipHitB hostOf u = false) ∧
    (∀ u ∈ zips, zipHitB hostOf u = true)

/-- Invariant of the whole accumulator triple. -/
def ListsInv (hostOf : String → Option String) (l : Lists) : Prop :=
  VZInv hostOf l.videos l.zips ∧ l.images.Nodup

/-! ## Lemmas about `pushUnique` -/

theorem mem_pushUnique {xs : List String} {x u : String} :
    u ∈ pushUnique xs x ↔ u ∈ xs ∨ u = x := by
  unfold pushUnique
  split
  · rename_i h
    constructor
    · exact Or.inl
    · rintro (hu | rfl)
      · exact hu
      · exact h
  · simp [List.mem_append]

theorem pushUnique_nodup {xs : List String} {x : String} (h : xs.Nodup) :
    (pushUnique xs x).Nodup := by
  unfold pushUnique
  split
  · exact h
  · rename_i hx
    simp [List.nodup_append, h, hx]

/-! ## Lemmas about the image loop -/

theorem mem_processImgs (imgs : List Img) (acc : List String) (u : String) :
    u ∈ processImgs imgs acc ↔
      u ∈ acc ∨ ∃ i ∈ imgs, imgCandidate i = some u := by
  induction imgs generalizing acc with
  | nil => simp [processImgs]
  | cons img rest ih =>
    simp only [processImgs]
    rw [ih]
    cases hc : imgCandidate img with
    | none =>
      simp only [List.mem_cons, exists_eq_or_imp, hc]
      constructor
      · rintro (hu | hrest)
        · exact Or.inl hu
        · exact Or.inr (Or.inr hrest)
      · rintro (hu | hfalse | hrest)
        · exact Or.inl hu
        · exact absurd hfalse (by simp)
        · exact Or.inr hrest
    | some s =>
      simp only [List.mem_cons, exists_eq_or_imp, hc, mem_pushUnique]
      constructor
      · rintro ((hu | rfl) | hrest)
        · exact Or.inl hu
        · exact Or.inr (Or.inl rfl)
        · exact Or.inr (Or.inr hrest)
      · rintro (hu | hs | hrest)
        · exact Or.inl (Or.inl hu)
        · exact Or.inl (Or.inr (by injection hs with hs; exact hs.symm))
        · exact Or.inr hrest

theorem processImgs_nodup : ∀ (imgs : List Img) {acc : List String},
    acc.Nodup → (processImgs imgs acc).Nodup := by
  intro imgs
  induction imgs with
  | nil => intro acc h; simpa [processImgs] using h
  | cons img rest ih =>
    intro acc h
    simp only [processImgs]
    cases hc : imgCandidate img with
    | none => exact ih h
    | some s => exact ih (pushUnique_nodup h)

/-! ## Lemmas about link classification -/

theorem classifyLink_of_none {hostOf : String → Option String} {href : String}
    (videos zips : List String) (h : hostOf href = none) :
    classifyLink hostOf href videos zips = .error () := by
  unfold classifyLink
  rw [h]

theorem classifyLink_of_some {hostOf : String → Option String} {href hn : String}
    (videos zips : List String) (h : hostOf href = some hn) :
    classifyLink hostOf href videos zips =
      (if zipDomains.any (fun d => jsIncludes (jsToLower hn) d) then
        .ok (videos, pushUnique zips href)
      else if videoDomains.any (fun d => jsIncludes (jsToLower hn) d) then
        .ok (pushUnique videos href, zips)
      else
        .ok (videos, zips)) := by
  unfold classifyLink
  rw [h]

theorem classifyLink_error_iff {hostOf : String → Option String} {href : String}
    {videos zips : List String} :
    classifyLink hostOf href videos zips = .error () ↔ hostOf href = none := by
  cases h : hostOf href with
  | none => simp [classifyLink_of_none videos zips h]
  | some hn =>
    rw [classifyLink_of_some videos zips h]
    split
    · simp
    · split <;> simp

theorem classifyLink_ok_inv {hostOf : String → Option String} {href : String}
    {v z v' z' : List String}
    (hok : classifyLink hostOf href v z = .ok (v', z'))
    (hinv : VZInv hostOf v z) : VZInv hostOf v' z' := by
  obtain ⟨hv, hz, hvf, hzt⟩ := hinv
  cases hh : hostOf href with
  | none => rw [classifyLink_of_none v z hh] at hok; exact absurd hok (by simp)
  | some hn =>
    rw [classifyLink_of_some v z hh] at hok
    by_cases hzip : zipDomains.any (fun d => jsIncludes (jsToLower hn) d) = true
    · rw [if_pos hzip] at hok
      injection hok with hok
      injection hok with h1 h2
      subst h1; subst h2
      refine ⟨hv, pushUnique_nodup hz, hvf, ?_⟩
      intro u hu
      rcases mem_pushUnique.mp hu with hu | rfl
      · exact hzt u hu
      · simp [zipHitB, hh, hzip]
    · rw [if_neg hzip] at hok
      by_cases hvid : videoDomains.any (fun d => jsIncludes (jsToLower hn) d) = true
      · rw [if_pos hvid] at hok
        injection hok with hok
        injection hok with h1 h2
        subst h1; subst h2
        refine ⟨pushUnique_nodup hv, hz, ?_, hzt⟩
        intro u hu
        rcases mem_pushUnique.mp hu with hu | rfl
        · exact hvf u hu
        · simp only [zipHitB, hh]
          simpa using hzip
      · rw [if_neg hvid] at hok
        injection hok with hok
        injection hok with h1 h2
        subst h1; subst h2
        exact ⟨hv, hz, hvf, hzt⟩

theorem classifyLink_ok_some {hostOf : String → Option String} {href : String}
    {v z : List String} {p : List String × List String}
    (hok : classifyLink hostOf href v z = .ok p) : hostOf href ≠ none := by
  intro hnone
  rw [classifyLink_of_none v z hnone] at hok
  exact absurd hok (by simp)

theorem classifyAll_cons {hostOf : String → Option String}
    {href : String} {v z : List String} {rest : List String} :
    classifyAll hostOf (href :: rest) v z =
      (match classifyLink hostOf href v z with
       | .error e => .error e
       | .ok (videos', zips') => classifyAll hostOf rest videos' zips') := rfl

theorem classifyAll_cons_error {hostOf : String → Option String}
    {href : String} {v z : List String} (rest : List String)
    (h : classifyLink hostOf href v z = .error ()) :
    classifyAll hostOf (href :: rest) v z = .error () := by
  rw [classifyAll_cons, h]

theorem classifyAll_cons_ok {hostOf : String → Option String}
    {href : String} {v z v' z' : List String} (rest : List String)
    (h : classifyLink hostOf href v z = .ok (v', z')) :
    classifyAll hostOf (href :: rest) v z = classifyAll hostOf rest v' z' := by
  rw [classifyAll_cons, h]

theorem classifyAll_error_iff {hostOf : String → Option String} :
    ∀ {links v z}, classifyAll hostOf links v z = .error () ↔
      ∃ h ∈ links, hostOf h = none := by
  intro links
  induction links with
  | nil => intro v z; simp [classifyAll]
  | cons href rest ih =>
    intro v z
    cases hc : classifyLink hostOf href v z with
    | error e =>
      cases e
      rw [classifyAll_cons_error rest hc]
      simp only [eq_self_iff_true, true_iff]
      exact ⟨href, List.mem_cons_self _ _, classifyLink_error_iff.mp hc⟩
    | ok p =>
      obtain ⟨v', z'⟩ := p
      rw [classifyAll_cons_ok rest hc, ih]
      constructor
      · rintro ⟨h, hmem, hnone⟩
        exact ⟨h, List.mem_cons_of_mem _ hmem, hnone⟩
      · rintro ⟨h, hmem, hnone⟩
        rcases List.mem_cons.mp hmem with rfl | hmem
        · exact absurd hnone (classifyLink_ok_some hc)
        · exact ⟨h, hmem, hnone⟩

theorem classifyAll_ok_inv {hostOf : String → Option String} :
    ∀ {links v z v' z'}, classifyAll hostOf links v z = .ok (v', z') →
      VZInv hostOf v z → VZInv hostOf v' z' := by
  intro links
  induction links with
  | nil =>
    intro v z v' z' hok hinv
    simp only [classifyAll] at hok
    injection hok with hok
    injection hok with h1 h2
    subst h1; subst h2
    exact hinv
  | cons href rest ih =>
    intro v z v' z' hok hinv
    cases hc : classifyLink hostOf href v z with
    | error e =>
      cases e
      rw [classifyAll_cons_error rest hc] at hok
      exact absurd hok (by simp)
    | ok p =>
      obtain ⟨v₁, z₁⟩ := p
      rw [classifyAll_cons_ok rest hc] at hok
      exact ih hok (classifyLink_ok_inv hc hinv)

/-! ## Lemmas about wrap processing and the whole extraction -/

theorem processWrap_of_error {hostOf : String → Option String}
    {w : ContentWrap} {st : Lists}
    (h : classifyAll hostOf (wrapLinks w) st.videos st.zips = .error ()) :
    processWrap hostOf w st = .error () := by
  unfold processWrap
  rw [h]

theorem processWrap_of_ok {hostOf : String → Option String}
    {w : ContentWrap} {st : Lists} {v z : List String}
    (h : classifyAll hostOf (wrapLinks w) st.videos st.zips = .ok (v, z)) :
    processWrap hostOf w st = .ok ⟨v, processImgs w.imgs st.images, z⟩ := by
  unfold processWrap
  rw [h]

theorem processWrap_error_iff {hostOf : String → Option String}
    {w : ContentWrap} {st : Lists} :
    processWrap hostOf w st = .error () ↔
      ∃ h ∈ wrapLinks w, hostOf h = none := by
  cases hc : classifyAll hostOf (wrapLinks w) st.videos st.zips with
  | error e =>
    cases e
    rw [processWrap_of_error hc]
    simp only [eq_self_iff_true, true_iff]
    exact classifyAll_error_iff.mp hc
  | ok p =>
    obtain ⟨v, z⟩ := p
    rw [processWrap_of_ok hc]
    constructor
    · intro hfalse
      exact absurd hfalse (by simp)
    · intro hex
      have : classifyAll hostOf (wrapLinks w) st.videos st.zips = .error () :=
        classifyAll_error_iff.mpr hex
      rw [this] at hc
      exact absurd hc (by simp)

theorem processWrap_ok_inv {hostOf : String → Option String}
    {w : ContentWrap} {st st' : Lists}
    (hok : processWrap hostOf w st = .ok st')
    (hinv : ListsInv hostOf st) : ListsInv hostOf st' := by
  obtain ⟨hvz, himg⟩ := hinv
  cases hc : classifyAll hostOf (wrapLinks w) st.videos st.zips with
  | error e =>
    cases e
    rw [processWrap_of_error hc] at hok
    exact absurd hok (by simp)
  | ok p =>
    obtain ⟨v, z⟩ := p
    rw [processWrap_of_ok hc] at hok
    injection hok with hok
    subst hok
    exact ⟨classifyAll_ok_inv hc hvz, processImgs_nodup w.imgs himg⟩

theorem processWrap_ok_images {hostOf : String → Option String}
    {w : ContentWrap} {st st' : Lists}
    (hok : processWrap hostOf w st = .ok st') :
    st'.images = processImgs w.imgs st.images := by
  cases hc : classifyAll hostOf (wrapLinks w) st.videos st.zips with
  | error e =>
    cases e
    rw [processWrap_of_error hc] at hok
    exact absurd hok (by simp)
  | ok p =>
    obtain ⟨v, z⟩ := p
    rw [processWrap_of_ok hc] at hok
    injection hok with hok
    subst hok
    rfl

theorem extractWraps_cons {hostOf : String → Option String}
    {w : ContentWrap} {rest : List ContentWrap} {st : Lists} :
    extractWraps hostOf (w :: rest) st =
      (match processWrap hostOf w st with
       | .error e => .error e
       | .ok st' => extractWraps hostOf rest st') := rfl

theorem extractWraps_cons_error {hostOf : String → Option String}
    {w : ContentWrap} {st : Lists} (rest : List ContentWrap)
    (h : processWrap hostOf w st = .error ()) :
    extractWraps hostOf (w :: rest) st = .error () := by
  rw [extractWraps_cons, h]

theorem extractWraps_cons_ok {hostOf : String → Option String}
    {w : ContentWrap} {st st' : Lists} (rest : List ContentWrap)
    (h : processWrap hostOf w st = .ok st') :
    extractWraps hostOf (w :: rest) st = extractWraps hostOf rest st' := by
  rw [extractWraps_cons, h]

theorem extractWraps_error_iff {hostOf : String → Option String} :
    ∀ {ws : List ContentWrap} {st : Lists},
      extractWraps hostOf ws st = .error () ↔
        ∃ w ∈ ws, ∃ h ∈ wrapLinks w, hostOf h = none := by
  intro ws
  induction ws with
  | nil => intro st; simp [extractWraps]
  | cons w rest ih =>
    intro st
    cases hc : processWrap hostOf w st with
    | error e =>
      cases e
      rw [extractWraps_cons_error rest hc]
      simp only [eq_self_iff_true, true_iff]
      exact ⟨w, List.mem_cons_self _ _, processWrap_error_iff.mp hc⟩
    | ok st' =>
      rw [extractWraps_cons_ok rest hc, ih]
      constructor
      · rintro ⟨w', hmem, hx⟩
        exact ⟨w', List.mem_cons_of_mem _ hmem, hx⟩
      · rintro ⟨w', hmem, hx⟩
        rcases List.mem_cons.mp hmem with rfl | hmem
        · exact absurd (processWrap_error_iff.mpr hx)
            (by rw [hc]; simp)
        · exact ⟨w', hmem, hx⟩

theorem extractWraps_ok_inv {hostOf : String → Option String} :
    ∀ {ws : List ContentWrap} {st l : Lists},
      extractWraps hostOf ws st = .ok l →
        ListsInv hostOf st → ListsInv hostOf l := by
  intro ws
  induction ws with
  | nil =>
    intro st l hok hinv
    simp only [extractWraps] at hok
    injection hok with hok
    subst hok
    exact hinv
  | cons w rest ih =>
    intro st l hok hinv
    cases hc : processWrap hostOf w st with
    | error e =>
      cases e
      rw [extractWraps_cons_error rest hc] at hok
      exact absurd hok (by simp)
    | ok st' =>
      rw [extractWraps_cons_ok rest hc] at hok
      exact ih hok (processWrap_ok_inv hc hinv)

theorem extractWraps_ok_images {hostOf : String → Option String} :
    ∀ {ws : List ContentWrap} {st l : Lists},
      extractWraps hostOf ws st = .ok l →
      ∀ u, (u ∈ l.images ↔
        u ∈ st.images ∨ ∃ w ∈ ws, ∃ i ∈ w.imgs, imgCandidate i = some u) := by
  intro ws
  induction ws with
  | nil =>
    intro st l hok u
    simp only [extractWraps] at hok
    injection hok with hok
    subst hok
    simp
  | cons w rest ih =>
    intro st l hok u
    cases hc : processWrap hostOf w st with
    | error e =>
      cases e
      rw [extractWraps_cons_error rest hc] at hok
      exact absurd hok (by simp)
    | ok st' =>
      rw [extractWraps_cons_ok rest hc] at hok
      rw [ih hok u, processWrap_ok_images hc, mem_processImgs]
      simp only [List.mem_cons, exists_eq_or_imp]
      exact or_assoc

theorem extract_of_error {hostOf : String → Option String} {doc : Doc}
    (h : extractWraps hostOf doc.wraps ⟨[], [], []⟩ = .error ()) :
    extract hostOf doc = .error () := by
  unfold extract
  rw [h]

theorem extract_of_ok {hostOf : String → Option String} {doc : Doc} {l : Lists}
    (h : extractWraps hostOf doc.wraps ⟨[], [], []⟩ = .ok l) :
    extract hostOf doc =
      .ok ⟨extractTitle doc.titleSpanText doc.titleHeadingText,
           l.videos, l.images, l.zips⟩ := by
  unfold extract
  rw [h]

theorem extract_ok_lists {hostOf : String → Option String} {doc : Doc}
    {r : ExtractionResult} (h : extract hostOf doc = .ok r) :
    ∃ l : Lists, extractWraps hostOf doc.wraps ⟨[], [], []⟩ = .ok l ∧
      r = ⟨extractTitle doc.titleSpanText doc.titleHeadingText,
           l.videos, l.images, l.zips⟩ := by
  cases hc : extractWraps hostOf doc.wraps ⟨[], [], []⟩ with
  | error e =>
    cases e
    rw [extract_of_error hc] at h
    exact absurd h (by simp)
  | ok l =>
    rw [extract_of_ok hc] at h
    injection h with h
    exact ⟨l, rfl, h.symm⟩

/-! ## Navigation state machine (main.ts lines 125-141)

The straight-line await sequence of the handler, abstracted as the trace
of phases it passes through.  The only branch is the challenge check on
the page title (line 130). -/

/-- main.ts line 130: the interstitial-challenge signature test on the
page title. -/
def challengeSig (t : String) : Bool :=
  jsIncludes t "Just a moment" || jsIncludes t "Attention Required"

inductive NavState where
  | NAVIGATING | CHALLENGE_CHECK | CHALLENGE_WAIT | SETTLING | SCROLLING | CAPTURED
  deriving DecidableEq, Repr

/-- Position of a phase in the linear order of the controller. -/
def navIdx : NavState → Nat
  | .NAVIGATING => 0
  | .CHALLENGE_CHECK => 1
  | .CHALLENGE_WAIT => 2
  | .SETTLING => 3
  | .SCROLLING => 4
  | .CAPTURED => 5

/-- The sequence of phases executed by main.ts lines 125-140 on a
failure-free run whose loaded page title is `t`: goto (line 125), title
inspection (lines 127-130), the conditional challenge wait (line 132),
the settle delay (line 136), the scroll (lines 137-138) and the capture
(line 140). -/
def navTrace (t : String) : List NavState :=
  [.NAVIGATING, .CHALLENGE_CHECK] ++
    (if challengeSig t then [.CHALLENGE_WAIT] else []) ++
    [.SETTLING, .SCROLLING, .CAPTURED]

/-! ## Page lifecycle of one request (main.ts lines 120-226)

Each awaited browser step may throw; `StepOutcomes` fixes which ones
succeed.  `runScrape` follows the handler's control flow: the `try` body
runs the steps in order, the `catch` (lines 219-226) answers 500 and does
NOT close the page.  (`page.waitForTimeout` — the passive delays — is
modelled as non-failing.) -/

structure StepOutcomes where
  sessionOk : Bool  -- getPersistentContext (line 121)
  newPageOk : Bool  -- context.newPage (line 122)
  gotoOk : Bool     -- page.goto (line 125)
  titleOk : Bool    -- page.title (line 127)
  scrollOk : Bool   -- page.evaluate scroll (line 137)
  contentOk : Bool  -- page.content (line 140)
  deriving DecidableEq, Repr

/-- Outcome of one request's page lifecycle: whether a Page was opened,
whether it was closed, and the HTTP status (with 200 standing for "the
try block reached the response", extraction aside). -/
structure RunSummary where
  pageOpened : Bool
  pageClosed : Bool
  status : Nat
  challengeWaited : Bool
  deriving DecidableEq, Repr

def runScrape (o : StepOutcomes) (pageTitle : String) : RunSummary :=
  if ¬ o.sessionOk then ⟨false, false, 500, false⟩
  else if ¬ o.newPageOk then ⟨false, false, 500, false⟩
  else if ¬ o.gotoOk then ⟨true, false, 500, false⟩
  else if ¬ o.titleOk then ⟨true, false, 500, false⟩
  else if ¬ o.scrollOk then ⟨true, false, 500, challengeSig pageTitle⟩
  else if ¬ o.contentOk then ⟨true, false, 500, challengeSig pageTitle⟩
  else ⟨true, true, 200, challengeSig pageTitle⟩

/-! ## Session acquisition (main.ts lines 14-51)

### Single-call model with injected step outcomes

`getPersistentContext` performs, in order: the null check (line 17), the
awaited `launchPersistentContext` whose result is assigned to the module
variable at resolution (line 21), and the awaited `addInitScript`
(line 43).  The model takes the prior state of the module variable and
the outcome of each awaited step, and returns the call's result together
with the new state of the module variable.  Session instances are
numbered. -/

def getPersistentContextOnce (st : Option Nat)
    (launch : Except String Nat) (ini : Except String Unit) :
    Except String Nat × Option Nat :=
  match st with
  | some c => (.ok c, some c)
  | none =>
    match launch with
    | .error e => (.error e, none)
    | .ok s =>
      match ini with
      | .error e => (.error e, some s)
      | .ok _ => (.ok s, some s)

/-! ### Two-caller interleaving model

Cooperative scheduling: each awaited step is a suspension point.  A task
is at one of four points of `getPersistentContext`:

* `ready` — about to run the null check (line 17);
* `launching` — suspended in `await launchPersistentContext`; when it
  resumes, the fresh session is assigned to the module variable
  (line 21);
* `initializing v` — suspended in `await addInitScript` (line 43) after
  having assigned session `v`;
* `finished v` — returned, with the value read from the module variable
  at return (line 50).

`launches` counts underlying browser-session constructions. -/

inductive TaskPC where
  | ready | launching | initializing (v : Nat) | finished (v : Nat)
  deriving DecidableEq, Repr

structure SessionState where
  ctx : Option Nat
  launches : Nat
  t0 : TaskPC
  t1 : TaskPC
  deriving DecidableEq, Repr

/-- Advance one task by one step (to its next suspension point). -/
def taskStep (ctx : Option Nat) (launches : Nat) (pc : TaskPC) :
    Option Nat × Nat × TaskPC :=
  match pc with
  | .ready =>
    match ctx with
    | some c => (ctx, launches, .finished c)  -- null check sees a context
    | none => (ctx, launches, .launching)     -- null check passes; launch begins
  | .launching =>
    -- the launch resolves: a fresh session is constructed and assigned
    (some (launches + 1), launches + 1, .initializing (launches + 1))
  | .initializing v =>
    -- addInitScript resolves; the function returns the module variable
    (ctx, launches, .finished (ctx.getD v))
  | .finished v => (ctx, launches, .finished v)

/-- Run one scheduler decision: `false` steps task 0, `true` steps
task 1. -/
def schedStep (s : SessionState) (who : Bool) : SessionState :=
  if who then
    let (c, l, pc) := taskStep s.ctx s.launches s.t1
    ⟨c, l, s.t0, pc⟩
  else
    let (c, l, pc) := taskStep s.ctx s.launches s.t0
    ⟨c, l, pc, s.t1⟩

/-- Execute a schedule from the initial state (`persistentContext = null`,
no constructions, both callers about to enter). -/
def runSched (sched : List Bool) : SessionState :=
  sched.foldl schedStep ⟨none, 0, .ready, .ready⟩

/-! ## HTTP request gate (main.ts lines 104-116)

The request body's `url` field: `none` models a missing or non-string
value.  `!url` is also true on the empty string. -/

inductive GateResult where
  | badRequest | forbidden | proceed
  deriving DecidableEq, Repr

/-- main.ts line 113: the origin check. -/
def validateOrigin (u : String) : Bool :=
  ALLOWED_PREFIXES.any (fun p => jsStartsWith u p)

def scrapeGate (url : Option String) : GateResult :=
  match url with
  | none => .badRequest
  | some u =>
    if u = "" then .badRequest
    else if validateOrigin u then .proceed
    else .forbidden

/-! ## Concrete inputs used in counterexamples and witnesses

`hostOfDemo` records what `new URL(u).hostname` actually returns in Node
for the specific strings below; strings outside the table are the ones
for which `new URL` throws (`"http://"` is rejected with
`TypeError: Invalid URL` because its host is empty). -/

def hostOfDemo (u : String) : Option String :=
  ([("http://upfiles.com/full.png", "upfiles.com"),
    ("http://upfiles.com/a.zip", "upfiles.com"),
    ("http://x.com/full.png", "x.com"),
    ("http://strmup.cc/v/abc", "strmup.cc")].find? (fun p => p.1 = u)).map
    (fun p => p.2)

/-- A page whose single post block holds one zip-host anchor wrapping an
image thumbnail; the anchor's href carries a `.png` extension. -/
def overlapDoc : Doc :=
  ⟨"", "",
   [⟨["http://upfiles.com/full.png"],
     [⟨some "http://img.example/thumb.png", none,
       some "http://upfiles.com/full.png"⟩]⟩]⟩

/-- What `extract` produces on `overlapDoc`. -/
def overlapResult : ExtractionResult :=
  ⟨"Untitled Thread", [], ["http://upfiles.com/full.png"],
   ["http://upfiles.com/full.png"]⟩

/-- A post block with one well-formed zip link followed by one malformed
link (`"http://"`). -/
def malformedDoc : Doc :=
  ⟨"", "", [⟨["http://upfiles.com/a.zip", "http://"], []⟩]⟩

/-- A post block whose image has an absolute `.png` src and sits inside
an anchor with a *relative* href that also ends in `.png`. -/
def relativeUpgradeDoc : Doc :=
  ⟨"", "", [⟨[], [⟨some "http://x.com/a.png", none, some "/full/a.png"⟩]⟩]⟩

/-- A post block whose image has a *relative* src with a recognized
extension, wrapped in an absolute anchor with a recognized extension. -/
def relativeSrcDoc : Doc :=
  ⟨"", "",
   [⟨["http://x.com/full.png"],
     [⟨some "/thumb.png", none, some "http://x.com/full.png"⟩]⟩]⟩

/-- A page with no title markup and no content blocks. -/
def bareDoc : Doc := ⟨"", "", []⟩

/-! ## Helper lemmas for the claim theorems -/

theorem upgradeSrc_some (src raw : String) :
    upgradeSrc src (some raw) =
      (if extMatch (jsTrim raw) then jsTrim raw else src) := rfl

theorem upgradeSrc_none (src : String) : upgradeSrc src none = src := rfl

theorem imgCandidate_starts_or_ext {img : Img} {u : String}
    (h : imgCandidate img = some u) :
    jsStartsWith u "http" = true ∨ extMatch u = true := by
  unfold imgCandidate at h
  by_cases h1 : jsStartsWith (imgSrc img) "http" = true
  · rw [if_pos h1] at h
    by_cases h2 : extMatch (imgSrc img) = true
    · rw [if_pos h2] at h
      injection h with h
      subst h
      cases hp : img.parentHref with
      | none => rw [upgradeSrc_none]; exact Or.inl h1
      | some raw =>
        rw [upgradeSrc_some]
        by_cases h3 : extMatch (jsTrim raw) = true
        · rw [if_pos h3]; exact Or.inr h3
        · rw [if_neg h3]; exact Or.inl h1
    · rw [if_neg h2] at h; exact absurd h (by simp)
  · rw [if_neg h1] at h; exact absurd h (by simp)

theorem imgCandidate_upgrade {img : Img} {raw : String}
    (hsrc : jsStartsWith (imgSrc img) "http" = true)
    (hext : extMatch (imgSrc img) = true)
    (hp : img.parentHref = some raw)
    (hpe : extMatch (jsTrim raw) = true) :
    imgCandidate img = some (jsTrim raw) := by
  unfold imgCandidate
  rw [if_pos hsrc, if_pos hext, hp, upgradeSrc_some, if_pos hpe]

theorem listStarts_append {v : List Char} :
    ∀ (pat u : List Char), listStarts pat u = true →
      listStarts pat (u ++ v) = true := by
  intro pat
  induction pat with
  | nil => intro u _; simp [listStarts]
  | cons a pa ih =>
    intro u h
    cases u with
    | nil => simp [listStarts] at h
    | cons b l =>
      rw [List.cons_append]
      simp only [listStarts, Bool.and_eq_true] at h ⊢
      exact ⟨h.1, ih l h.2⟩

theorem jsStartsWith_append (u v pre : String)
    (h : jsStartsWith u pre = true) : jsStartsWith (u ++ v) pre = true := by
  obtain ⟨ud⟩ := u
  obtain ⟨vd⟩ := v
  unfold jsStartsWith at h ⊢
  exact listStarts_append _ _ h

/-! ## The claim theorems -/

/-- C1, counterexample: on a post whose image thumbnail is wrapped in a
zip-host anchor ending in `.png`, the very same URL lands in both `zips`
(by hostname classification) and `images` (by the anchor-upgrade rule),
so the three output lists are not pairwise disjoint. -/
theorem extract_image_zip_overlap :
    extract hostOfDemo overlapDoc = .ok overlapResult ∧
    "http://upfiles.com/full.png" ∈ overlapResult.images ∧
    "http://upfiles.com/full.png" ∈ overlapResult.zips :=
  ⟨rfl, by decide, by decide⟩

/-- C1 (amended): within each output list every entry occurs exactly
once, and `videos` and `zips` never share a member; the `images` list,
however, may share members with the other two. -/
theorem extract_nodup_and_videos_zips_disjoint
    (hostOf : String → Option String) (doc : Doc) (r : ExtractionResult)
    (h : extract hostOf doc = .ok r) :
    r.videos.Nodup ∧ r.images.Nodup ∧ r.zips.Nodup ∧
      ∀ u ∈ r.videos, u ∉ r.zips := by
  obtain ⟨l, hw, rfl⟩ := extract_ok_lists h
  have hinv : ListsInv hostOf l :=
    extractWraps_ok_inv hw
      ⟨⟨List.nodup_nil, List.nodup_nil, by simp, by simp⟩, List.nodup_nil⟩
  obtain ⟨⟨hv, hz, hvf, hzt⟩, himg⟩ := hinv
  refine ⟨hv, himg, hz, ?_⟩
  intro u hu huz
  have h1 := hvf u hu
  have h2 := hzt u huz
  rw [h1] at h2
  exact absurd h2 (by simp)

/-- C1, witness for the amended theorem at a concrete page. -/
theorem extract_nodup_disjoint_witness :
    overlapResult.videos.Nodup ∧ overlapResult.images.Nodup ∧
    overlapResult.zips.Nodup ∧
    ∀ u ∈ overlapResult.videos, u ∉ overlapResult.zips :=
  extract_nodup_and_videos_zips_disjoint hostOfDemo overlapDoc overlapResult rfl

/-- C2, counterexample: a batch holding one well-formed zip link and the
malformed href `"http://"` (for which `new URL` throws) does not skip the
bad URL — the whole extraction throws and the request is answered 500. -/
theorem malformed_link_kills_request :
    extract hostOfDemo malformedDoc = .error () ∧
    scrapeResponseStatus (extract hostOfDemo malformedDoc) = 500 :=
  ⟨rfl, rfl⟩

/-- C2 (amended): classification has no per-URL recovery — the rendered
page's extraction throws exactly when some discovered href in some
content block has no derivable hostname, and the uncaught exception makes
the request fail with 500 (classification of the remaining URLs is
abandoned, not resumed). -/
theorem extract_error_iff_malformed_link
    (hostOf : String → Option String) (doc : Doc) :
    (extract hostOf doc = .error () ↔
      ∃ w ∈ doc.wraps, ∃ h ∈ wrapLinks w, hostOf h = none) ∧
    (extract hostOf doc = .error () →
      scrapeResponseStatus (extract hostOf doc) = 500) := by
  constructor
  · constructor
    · intro he
      cases hc : extractWraps hostOf doc.wraps ⟨[], [], []⟩ with
      | error e => cases e; exact extractWraps_error_iff.mp hc
      | ok l => rw [extract_of_ok hc] at he; exact absurd he (by simp)
    · intro hex
      exact extract_of_error (extractWraps_error_iff.mpr hex)
  · intro he
    rw [he]
    rfl

/-- C2, witness for the amended theorem at a concrete page. -/
theorem extract_error_witness :
    scrapeResponseStatus (extract hostOfDemo malformedDoc) = 500 :=
  (extract_error_iff_malformed_link hostOfDemo malformedDoc).2 rfl

/-- C3 (code bug): when `page.goto` throws after the Page was opened, the
`catch` block (main.ts lines 219-226) answers 500 without closing the
Page — the Page leaks, contradicting the required close-on-every-path;
only the full success path closes it. -/
theorem goto_failure_leaks_page :
    runScrape ⟨true, true, false, true, true, true⟩ "" =
      ⟨true, false, 500, false⟩ ∧
    runScrape ⟨true, true, true, true, true, true⟩ "" =
      ⟨true, true, 200, false⟩ :=
  ⟨rfl, rfl⟩

/-- C4 (code bug): under the schedule "task 0 runs its null check, task 1
runs its null check, task 0 finishes creation, task 1 finishes creation",
the plain nullable check of `getPersistentContext` lets both tasks pass
the check, so TWO browser sessions are constructed and the two callers
receive different instances. -/
theorem race_double_launch :
    (runSched [false, true, false, false, true, true]).launches = 2 ∧
    (runSched [false, true, false, false, true, true]).t0 = .finished 1 ∧
    (runSched [false, true, false, false, true, true]).t1 = .finished 2 := by
  decide

/-- C5, counterexample: an image with an absolute `.png` src wrapped in
an anchor whose href is the *relative* path `"/full/a.png"` gets the
anchor href inserted into `images` — an entry that does not start with
`"http"`. -/
theorem upgraded_image_not_http :
    extract hostOfDemo relativeUpgradeDoc =
      .ok ⟨"Untitled Thread", [], ["/full/a.png"], []⟩ ∧
    jsStartsWith "/full/a.png" "http" = false :=
  ⟨rfl, by decide⟩

/-- C5 (amended): every entry of the images list either starts with
`"http"` (the image's own discovered src, which is prefix-checked) or
carries a recognized image extension (the enclosing anchor's trimmed
href substituted by the upgrade rule, which is *not* prefix-checked). -/
theorem images_http_or_image_ext
    (hostOf : String → Option String) (doc : Doc) (r : ExtractionResult)
    (h : extract hostOf doc = .ok r) :
    ∀ u ∈ r.images, jsStartsWith u "http" = true ∨ extMatch u = true := by
  obtain ⟨l, hw, rfl⟩ := extract_ok_lists h
  intro u hu
  rcases (extractWraps_ok_images hw u).mp hu with hin | ⟨w, _, i, _, hc⟩
  · exact absurd hin (by simp)
  · exact imgCandidate_starts_or_ext hc

/-- C5, witness for the amended theorem at a concrete page. -/
theorem images_http_or_ext_witness :
    jsStartsWith "/full/a.png" "http" = true ∨ extMatch "/full/a.png" = true :=
  images_http_or_image_ext hostOfDemo relativeUpgradeDoc
    ⟨"Untitled Thread", [], ["/full/a.png"], []⟩ rfl "/full/a.png" (by decide)

/-- C6, counterexample: an image whose src is the *relative*
`"/thumb.png"` (which carries a recognized extension), wrapped in an
anchor whose href `"http://x.com/full.png"` also carries a recognized
extension, inserts nothing at all — the anchor's href is NOT the value
inserted, because the src fails the `http` prefix test and the element is
skipped before the upgrade rule is consulted. -/
theorem upgrade_skipped_for_relative_src :
    extMatch "/thumb.png" = true ∧
    extMatch (jsTrim "http://x.com/full.png") = true ∧
    extract hostOfDemo relativeSrcDoc = .ok ⟨"Untitled Thread", [], [], []⟩ :=
  ⟨by decide, by decide, rfl⟩

/-- C6 (amended): for every image element in a content region whose
effective src starts with `"http"` AND carries a recognized image
extension, and which is enclosed in an anchor whose trimmed href also
carries a recognized image extension, the value the element contributes
is the anchor's href — not the src — and that href ends up in the images
list. -/
theorem anchor_upgrade_rule
    (hostOf : String → Option String) (doc : Doc) (r : ExtractionResult)
    (w : ContentWrap) (img : Img) (raw : String)
    (h : extract hostOf doc = .ok r)
    (hw : w ∈ doc.wraps) (hi : img ∈ w.imgs)
    (hsrc : jsStartsWith (imgSrc img) "http" = true)
    (hext : extMatch (imgSrc img) = true)
    (hp : img.parentHref = some raw)
    (hpe : extMatch (jsTrim raw) = true) :
    imgCandidate img = some (jsTrim raw) ∧ jsTrim raw ∈ r.images := by
  have hcand := imgCandidate_upgrade hsrc hext hp hpe
  obtain ⟨l, hwr, rfl⟩ := extract_ok_lists h
  exact ⟨hcand, (extractWraps_ok_images hwr (jsTrim raw)).mpr
    (Or.inr ⟨w, hw, img, hi, hcand⟩)⟩

/-- C6, witness for the amended theorem at a concrete page. -/
theorem anchor_upgrade_witness :
    imgCandidate ⟨some "http://img.example/thumb.png", none,
        some "http://upfiles.com/full.png"⟩ =
      some (jsTrim "http://upfiles.com/full.png") ∧
    jsTrim "http://upfiles.com/full.png" ∈ overlapResult.images :=
  anchor_upgrade_rule hostOfDemo overlapDoc overlapResult
    ⟨["http://upfiles.com/full.png"],
     [⟨some "http://img.example/thumb.png", none,
       some "http://upfiles.com/full.png"⟩]⟩
    ⟨some "http://img.example/thumb.png", none,
     some "http://upfiles.com/full.png"⟩
    "http://upfiles.com/full.png" rfl (by decide) (by decide) (by decide)
    (by decide) (by decide) (by decide)

/-- C7: the extracted title is the trimmed nested-span text; if that is
empty (including when the selector matches nothing, in which case cheerio
yields `""`), the trimmed heading text; and if that is still empty — in
particular when no title heading exists at all — the literal
`"Untitled Thread"`. -/
theorem title_extraction_spec
    (hostOf : String → Option String) (doc : Doc) (r : ExtractionResult)
    (h : extract hostOf doc = .ok r) :
    r.title =
      (if jsTrim doc.titleSpanText ≠ "" then jsTrim doc.titleSpanText
       else if jsTrim doc.titleHeadingText ≠ "" then jsTrim doc.titleHeadingText
       else "Untitled Thread") := by
  obtain ⟨l, hw, rfl⟩ := extract_ok_lists h
  show extractTitle doc.titleSpanText doc.titleHeadingText = _
  by_cases h1 : jsTrim doc.titleSpanText = ""
  · by_cases h2 : jsTrim doc.titleHeadingText = "" <;>
      simp [extractTitle, h1, h2]
  · simp [extractTitle, h1]

/-- C7, witness at a page with no title markup at all. -/
theorem title_extraction_witness :
    (ExtractionResult.mk "Untitled Thread" [] [] []).title =
      (if jsTrim "" ≠ "" then jsTrim ""
       else if jsTrim "" ≠ "" then jsTrim ""
       else "Untitled Thread") :=
  title_extraction_spec hostOfDemo bareDoc ⟨"Untitled Thread", [], [], []⟩ rfl

/-- C8, counterexample: when the launch succeeds (session 7) but the
subsequent `addInitScript` step fails, the failure propagates AND the
module variable already holds session 7 — the Session does not remain
uncreated, and the next acquisition call returns the
partially-initialized session instead of retrying creation. -/
theorem init_failure_leaves_partial_session :
    getPersistentContextOnce none (.ok 7) (.error "init script failed") =
      (.error "init script failed", some 7) ∧
    getPersistentContextOnce (some 7) (.error "unused") (.error "unused") =
      (.ok 7, some 7) :=
  ⟨rfl, rfl⟩

/-- C8 (amended): if the launch step itself fails, the failure propagates
and the Session remains uncreated, so a later call retries creation; but
if the post-launch init-script step fails, the failure propagates while
the freshly-launched session stays assigned, and later calls return it
without re-creating. -/
theorem session_failure_paths
    (e : String) (ini : Except String Unit) (s : Nat) :
    getPersistentContextOnce none (.error e) ini = (.error e, none) ∧
    getPersistentContextOnce none (.ok s) (.error e) = (.error e, some s) ∧
    getPersistentContextOnce none (.ok s) (.ok ()) = (.ok s, some s) :=
  ⟨rfl, rfl, rfl⟩

/-- C9: the navigation sequence is linear — when the loaded title carries
a challenge signature the trace passes through `CHALLENGE_WAIT` (before
capture), otherwise `CHALLENGE_WAIT` is absent; in both cases the phases
appear in strictly increasing order, so no step ever returns to an
earlier one. -/
theorem nav_state_machine_linear (t : String) :
    (challengeSig t = true →
      navTrace t = [.NAVIGATING, .CHALLENGE_CHECK, .CHALLENGE_WAIT,
                    .SETTLING, .SCROLLING, .CAPTURED]) ∧
    (challengeSig t = false →
      navTrace t = [.NAVIGATING, .CHALLENGE_CHECK,
                    .SETTLING, .SCROLLING, .CAPTURED]) ∧
    (navTrace t).Chain' (fun a b => navIdx a < navIdx b) ∧
    ((.CHALLENGE_WAIT : NavState) ∈ navTrace t ↔ challengeSig t = true) := by
  by_cases h : challengeSig t = true
  · refine ⟨fun _ => by simp [navTrace, h], fun hf => ?_, ?_, ?_⟩
    · rw [h] at hf; exact absurd hf (by simp)
    · simp [navTrace, h, List.chain'_cons, navIdx]
    · simp [navTrace, h]
  · have h' : challengeSig t = false := by
      cases hb : challengeSig t
      · rfl
      · exact absurd hb h
    refine ⟨fun ht => absurd ht h, fun _ => by simp [navTrace, h'], ?_, ?_⟩
    · simp [navTrace, h', List.chain'_cons, navIdx]
    · simp [navTrace, h']

/-- C9, witness: a Cloudflare interstitial title takes the
challenge-wait branch, an ordinary title skips it. -/
theorem nav_state_machine_witness :
    navTrace "Just a moment..." =
      [.NAVIGATING, .CHALLENGE_CHECK, .CHALLENGE_WAIT,
       .SETTLING, .SCROLLING, .CAPTURED] ∧
    navTrace "Thread title" =
      [.NAVIGATING, .CHALLENGE_CHECK, .SETTLING, .SCROLLING, .CAPTURED] :=
  ⟨(nav_state_machine_linear "Just a moment...").1 (by decide),
   (nav_state_machine_linear "Thread title").2.1 (by decide)⟩

/-- C10: origin validation is a bare string-prefix test against the three
literal allow-list entries — no URL parsing: a plain-HTTP dropmms.co URL
proceeds, `https://dropmms.co.evil.example/page` proceeds, and appending
anything to an accepted string keeps it accepted. -/
theorem origin_check_prefix_only :
    scrapeGate (some "http://dropmms.co/forum/1") = .proceed ∧
    scrapeGate (some "https://dropmms.co.evil.example/page") = .proceed ∧
    (∀ u : String, validateOrigin u =
      (jsStartsWith u "http://dropmms.co" ||
       jsStartsWith u "https://dropmms.co" ||
       jsStartsWith u "https://videmms24.com")) ∧
    (∀ u s : String, validateOrigin u = true →
      validateOrigin (u ++ s) = true) := by
  refine ⟨by decide, by decide, ?_, ?_⟩
  · intro u
    simp [validateOrigin, ALLOWED_PREFIXES, Bool.or_assoc]
  · intro u s hu
    simp only [validateOrigin, ALLOWED_PREFIXES, List.any_eq_true] at hu ⊢
    obtain ⟨p, hp, hstart⟩ := hu
    exact ⟨p, hp, jsStartsWith_append u s p hstart⟩

/-- C10, witness: the prefix-extension property at a concrete accepted
origin. -/
theorem origin_check_witness :
    validateOrigin ("https://dropmms.co" ++ ".evil.example/page") = true :=
  origin_check_prefix_only.2.2.2 "https://dropmms.co" ".evil.example/page"
    (by decide)

end DropScrape
